import Mathlib

/-!
Shallow embedding of the retrieval core of the PDF-RAG repository
(`data_loader.py`, `vector_db.py`, `main.py`) and verification of its
specification claims.

External collaborators (the Qdrant server, the OpenAI embedding service,
the sentence splitter of llama-index) are modelled as explicit data or as
function parameters; the Python code of the repository is translated
definition by definition.
-/

set_option autoImplicit false

namespace RAG

/-- A Qdrant payload dict as built and read by this repository: the two keys
`source` and `text`, each possibly absent (`payload.get` with a default). -/
structure Payload where
  source : Option String
  text : Option String
deriving Repr, DecidableEq

/-- A search hit returned by the Qdrant client; `getattr(r, 'payload', None)`
means the payload may be absent. -/
structure Hit where
  payload : Option Payload
deriving Repr, DecidableEq

/-- `getattr(r, 'payload', None) or {}`: an absent payload is replaced by the
empty dict, on which `get` yields the defaults. -/
def emptyPayload : Payload := ⟨none, none⟩

/-- `payload.get('text', '')` for a hit `r`. -/
def Hit.textOf (r : Hit) : String := ((r.payload.getD emptyPayload).text).getD ""

/-- `payload.get('source', '')` for a hit `r`. -/
def Hit.sourceOf (r : Hit) : String := ((r.payload.getD emptyPayload).source).getD ""

/-- `sources.add(s)` on a Python `set`, modelled as a duplicate-free list with
insertion order (the repository's claims never depend on the set's order). -/
def addSource (sources : List String) (s : String) : List String :=
  if s ∈ sources then sources else sources ++ [s]

/-- The dict `{'contexts': ..., 'sources': ...}` returned by
`QdrantStorage.search`. -/
structure SearchResult where
  contexts : List String
  sources : List String
deriving Repr, DecidableEq

/-- The result-processing loop of `QdrantStorage.search`: for each hit take
`text` and `source` with defaults; when `text` is truthy (non-empty) append it
to `contexts` and add `source` to the `sources` set, otherwise drop the hit. -/
def processHits : List Hit → List String → List String → SearchResult
  | [], cs, ss => ⟨cs, ss⟩
  | r :: rest, cs, ss =>
    if r.textOf ≠ "" then processHits rest (cs ++ [r.textOf]) (addSource ss r.sourceOf)
    else processHits rest cs ss

/-- Errors that a call into the Qdrant client can raise. The repository never
defines a `StoreUnavailableError`; `qdrantClientError` stands for the raw
exception of the client library, which the code lets propagate. The
`storeUnavailableError` constructor exists only so the spec's claimed error
can be stated and compared against. -/
inductive StoreError where
  | qdrantClientError : String → StoreError
  | storeUnavailableError : String → StoreError
deriving Repr, DecidableEq

/-- `QdrantStorage.search`, given the outcome of the underlying
`client.search` call (the network reply, or the client's exception).
The Python method has no try/except: a raised exception propagates unchanged;
on success the hits are folded into `{'contexts': ..., 'sources': ...}`. -/
def QdrantStorage.search (reply : Except StoreError (List Hit)) :
    Except StoreError SearchResult :=
  match reply with
  | .error e => .error e
  | .ok results => .ok (processHits results [] [])

/-- The nearest-neighbour reply of the external Qdrant server for
`client.search(..., limit=top_k)`: the server returns its ranked hits for the
collection, truncated to at most `limit` entries. -/
def qdrantReply (ranked : List Hit) (limit : Nat) : List Hit := ranked.take limit

/-- `QdrantStorage.search` against a live collection whose ranked hit list for
the query is `ranked`: the client is asked with `limit = top_k` and the reply
is folded into a `SearchResult`. -/
def searchStore (ranked : List Hit) (top_k : Nat) : SearchResult :=
  processHits (qdrantReply ranked top_k) [] []

/-- The hits of a reply that survive the `if text:` filter, in reply order. -/
def keptTexts (results : List Hit) : List String :=
  (results.map Hit.textOf).filter (fun t => t ≠ "")

/-! ## `QdrantStorage.upsert` and the ingest pipeline -/

/-- Embedding vectors are opaque to the logic of this repository; entries are
modelled as integers. -/
abbrev Vec := List Int

/-- A `qdrant_client.models.PointStruct` as built by `QdrantStorage.upsert`. -/
structure PointStruct where
  id : String
  vector : Vec
  payload : Payload
deriving Repr, DecidableEq

/-- Exceptions a pipeline step can raise. `indexError` is Python's
`IndexError` from `vectors[i]` / `payloads[i]` past the end of the list. The
repository never defines an `EmptyInputError`; the constructor exists only so
the spec's claimed error can be stated and compared against. -/
inductive PyError where
  | indexError : PyError
  | emptyInputError : PyError
deriving Repr, DecidableEq

/-- The list comprehension of `QdrantStorage.upsert`:
`[PointStruct(id=ids[i], vector=vectors[i], payload=payloads[i]) for i in range(len(ids))]`.
It walks `i = 0 .. len(ids)-1`; an access past the end of `vectors` or
`payloads` raises `IndexError` at that `i`; extra entries of `vectors` or
`payloads` beyond `len(ids)` are never touched. -/
def buildPoints : List String → List Vec → List Payload →
    Except PyError (List PointStruct)
  | [], _, _ => .ok []
  | _ :: _, [], _ => .error .indexError
  | _ :: _, _ :: _, [] => .error .indexError
  | id :: ids, v :: vs, p :: ps =>
    (buildPoints ids vs ps).map (fun pts => ⟨id, v, p⟩ :: pts)

/-- A network call made to the Qdrant server. -/
inductive StoreOp where
  | upsertCall : List PointStruct → StoreOp
deriving Repr, DecidableEq

/-- `QdrantStorage.upsert(ids, vectors, payloads)`: first the point list is
built (any `IndexError` is raised here, before the network), then the single
`client.upsert` network call is issued with those points. -/
def QdrantStorage.upsert (ids : List String) (vectors : List Vec)
    (payloads : List Payload) : Except PyError StoreOp :=
  (buildPoints ids vectors payloads).map StoreOp.upsertCall

/-- The persisted state of the external store's collection: one record per
point, keyed by id. -/
abbrev Store := List PointStruct

/-- Modelled from the spec: the Qdrant server is outside the repository; per
the spec's glossary, upsert is insert-or-overwrite by id. Writing one point
replaces every record with the same id, or appends when the id is absent. -/
def storeWrite (st : Store) (p : PointStruct) : Store :=
  if st.any (fun e => e.id = p.id) then
    st.map (fun e => if e.id = p.id then p else e)
  else st ++ [p]

/-- Modelled from the spec: applying one network call to the store state; the
points of an upsert call are written in order. -/
def applyOp (st : Store) : StoreOp → Store
  | .upsertCall pts => pts.foldl storeWrite st

/-- The ids present in the store. -/
def storeIds (st : Store) : List String := st.map PointStruct.id

/-- The id derivation of `_upsert` in `main.py`:
`str(uuid.uuid5(uuid.NAMESPACE_URL, f"{source_id}: {i}")) for i in range(len(chunks))`.
`uuid5` (a fixed hash of the name string) is any function of the name
string; determinism is all the code relies on. -/
def deriveIds (uuid5 : String → String) (source_id : String) (n : Nat) :
    List String :=
  (List.range n).map (fun i => uuid5 (source_id ++ ": " ++ toString i))

/-- A document section produced by `PDFReader().load_data`; `text` may be
absent (`getattr(d, 'text', None)`). -/
structure PDFDoc where
  text : Option String
deriving Repr, DecidableEq

/-- `load_and_chunk_pdf` of `data_loader.py`, given the reader's output and
the external `SentenceSplitter.split_text` as a function: keep each doc's
`text` when truthy, then extend the chunk list with `split_text(t)` for each
kept text. -/
def load_and_chunk_pdf (split_text : String → List String)
    (docs : List PDFDoc) : List String :=
  let texts := (docs.filterMap PDFDoc.text).filter (fun t => t ≠ "")
  texts.foldl (fun chunks t => chunks ++ split_text t) []

/-- `RAGChunkAndSrc` of `custom_types.py` as used by `main.py`. -/
structure RAGChunkAndSrc where
  chunks : List String
  source_id : String
deriving Repr, DecidableEq

/-- `RAGUpsertResult` of `custom_types.py`: `{ingested: int}`. -/
structure RAGUpsertResult where
  ingested : Nat
deriving Repr, DecidableEq

/-- The `_load` step of `rag_ingest_pdf`: chunk the PDF and pair the chunks
with the source id. -/
def rag_load (split_text : String → List String) (docs : List PDFDoc)
    (source_id : String) : RAGChunkAndSrc :=
  ⟨load_and_chunk_pdf split_text docs, source_id⟩

/-- The `_upsert` step of `rag_ingest_pdf`, given the external embedding
capability `embed` (one vector per text, order-preserving): embed the chunks,
derive the deterministic ids, build the payloads
`{"source": source_id, "text": chunks[i]}`, call `QdrantStorage().upsert`,
and report `ingested = len(chunks)`. Returns the store state after the
network call together with the step result. -/
def rag_upsert (uuid5 : String → String) (embed : String → Vec) (st : Store)
    (cs : RAGChunkAndSrc) : Except PyError (Store × RAGUpsertResult) :=
  let chunks := cs.chunks
  let vecs := chunks.map embed
  let ids := deriveIds uuid5 cs.source_id chunks.length
  let payloads := chunks.map (fun c => Payload.mk (some cs.source_id) (some c))
  (QdrantStorage.upsert ids vecs payloads).map
    (fun op => (applyOp st op, ⟨chunks.length⟩))

/-- The `rag_ingest_pdf` pipeline: `_load` then `_upsert`, strictly in order. -/
def rag_ingest_pdf (split_text : String → List String)
    (uuid5 : String → String) (embed : String → Vec) (st : Store)
    (docs : List PDFDoc) (source_id : String) :
    Except PyError (Store × RAGUpsertResult) :=
  rag_upsert uuid5 embed st (rag_load split_text docs source_id)

/-! ## Collection setup (`QdrantStorage.__init__`) -/

/-- The distance metric of a collection; the code always configures
`Distance.COSINE`. -/
inductive Distance where
  | cosine
deriving Repr, DecidableEq

/-- `qdrant_client.models.VectorParams`: the configuration of a collection. -/
structure VectorParams where
  size : Nat
  distance : Distance
deriving Repr, DecidableEq

/-- Errors collection setup could raise. The repository never defines a
`DimensionMismatchError`; the constructor exists only so the spec's claimed
error can be stated and compared against. -/
inductive InitError where
  | dimensionMismatchError : InitError
deriving Repr, DecidableEq

/-- `QdrantStorage.__init__` against a server on which the collection either
does not exist (`none`) or exists with configuration `some cfg`: when absent,
`create_collection` configures it with `VectorParams(size=dim,
distance=Distance.COSINE)`; when present, nothing is done. The result is the
collection's configuration after construction. This is the branch of the
constructor that runs once the `collection_exists` network call has
succeeded; `QdrantStorage.initWithCheck` models the whole constructor,
including that call's possible connectivity failure. -/
def QdrantStorage.init (existing : Option VectorParams) (dim : Nat) :
    Except InitError VectorParams :=
  match existing with
  | none => .ok ⟨dim, .cosine⟩
  | some cfg => .ok cfg

/-- `QdrantStorage.__init__` as a whole, given the outcome of the
`client.collection_exists` network call (its reply, or the client's raised
exception). The Python constructor has no try/except, so an exception from
the collection-exists check propagates unchanged; on a successful check the
ensure-if-absent logic runs and never raises. -/
def QdrantStorage.initWithCheck
    (existsReply : Except StoreError (Option VectorParams)) (dim : Nat) :
    Except StoreError VectorParams :=
  match existsReply with
  | .error e => .error e
  | .ok none => .ok ⟨dim, .cosine⟩
  | .ok (some cfg) => .ok cfg

/-- Records with payload source `s` in the store. -/
def countSource (st : Store) (s : String) : Nat :=
  st.countP (fun p => p.payload.source = some s)

deriving instance DecidableEq for Except

/-- Whether the outcome of a client call is the spec's
`StoreUnavailableError`. -/
def isStoreUnavailable {α : Type} : Except StoreError α → Bool
  | .error (.storeUnavailableError _) => true
  | _ => false

/-- Whether the outcome of a client call is a success. -/
def isOkResult {α : Type} : Except StoreError α → Bool
  | .ok _ => true
  | .error _ => false

/-- A concrete instance of the external sentence splitter for the spec's
scenario: windows of `size` characters advancing by `size - overlap`. -/
def windowSplit (size overlap : Nat) (t : String) : List String :=
  let stride := size - overlap
  let n := if t.length ≤ size then 1 else 1 + ((t.length - size + stride - 1) / stride)
  (List.range n).map (fun k => (t.drop (k * stride)).take size)

/-- The spec's scenario document text: 2400 characters. -/
def bigText : String := String.mk (List.replicate 2400 'a')

/-- A concrete ranked hit list whose best-ranked hit carries empty text while
two further hits carry non-empty text. -/
def demoRanked : List Hit :=
  [Hit.mk (some (Payload.mk (some "s") (some ""))),
   Hit.mk (some (Payload.mk (some "s") (some "a"))),
   Hit.mk (some (Payload.mk (some "s") (some "b")))]

/-! ## Lemmas -/

theorem processHits_contexts (results : List Hit) (cs ss : List String) :
    (processHits results cs ss).contexts = cs ++ keptTexts results := by
  induction results generalizing cs ss with
  | nil => simp [processHits, keptTexts]
  | cons r rest ih =>
    by_cases h : r.textOf = ""
    · simp [processHits, keptTexts, h, ih]
    · simp [processHits, keptTexts, h, ih]

theorem addSource_nodup (ss : List String) (s : String) (h : ss.Nodup) :
    (addSource ss s).Nodup := by
  unfold addSource
  by_cases hs : s ∈ ss
  · simpa [hs] using h
  · rw [if_neg hs, List.nodup_append]
    exact ⟨h, List.nodup_singleton s, by simpa using fun hx => hs hx⟩

theorem addSource_mem_self (ss : List String) (s : String) : s ∈ addSource ss s := by
  unfold addSource
  by_cases hs : s ∈ ss <;> simp [hs]

theorem addSource_mem_mono (ss : List String) (s x : String) (h : x ∈ ss) :
    x ∈ addSource ss s := by
  unfold addSource
  by_cases hs : s ∈ ss <;> simp [hs, h]

theorem processHits_sources_nodup (results : List Hit) (cs ss : List String)
    (h : ss.Nodup) : (processHits results cs ss).sources.Nodup := by
  induction results generalizing cs ss with
  | nil => simpa [processHits]
  | cons r rest ih =>
    by_cases ht : r.textOf = ""
    · simpa [processHits, ht] using ih cs ss h
    · simpa [processHits, ht] using
        ih (cs ++ [r.textOf]) (addSource ss r.sourceOf) (addSource_nodup ss r.sourceOf h)

theorem processHits_sources_mono (results : List Hit) (cs ss : List String)
    (x : String) (h : x ∈ ss) : x ∈ (processHits results cs ss).sources := by
  induction results generalizing cs ss with
  | nil => simpa [processHits]
  | cons r rest ih =>
    by_cases ht : r.textOf = ""
    · simpa [processHits, ht] using ih cs ss h
    · simpa [processHits, ht] using
        ih (cs ++ [r.textOf]) (addSource ss r.sourceOf)
          (addSource_mem_mono ss r.sourceOf x h)

theorem processHits_sources_of_mem (results : List Hit) (cs ss : List String)
    (r : Hit) (hr : r ∈ results) (ht : r.textOf ≠ "") :
    r.sourceOf ∈ (processHits results cs ss).sources := by
  induction results generalizing cs ss with
  | nil => cases hr
  | cons a rest ih =>
    rcases List.mem_cons.mp hr with rfl | hmem
    · simp only [processHits, if_pos ht]
      exact processHits_sources_mono rest _ _ _ (addSource_mem_self ss r.sourceOf)
    · by_cases ha : a.textOf = ""
      · simpa [processHits, ha] using ih cs ss hmem
      · simpa [processHits, ha] using ih (cs ++ [a.textOf]) (addSource ss a.sourceOf) hmem

/-! ## Lemmas about `buildPoints` -/

theorem buildPoints_error (ids : List String) (vs : List Vec)
    (ps : List Payload) (h : vs.length < ids.length ∨ ps.length < ids.length) :
    buildPoints ids vs ps = .error .indexError := by
  induction ids generalizing vs ps with
  | nil => simp at h
  | cons i ids ih =>
    match vs, ps with
    | [], _ => rfl
    | _ :: _, [] => rfl
    | v :: vs, p :: ps =>
      have h' : vs.length < ids.length ∨ ps.length < ids.length := by
        simpa [Nat.succ_lt_succ_iff] using h
      simp [buildPoints, ih vs ps h', Except.map]

theorem buildPoints_ok (ids : List String) (vs : List Vec) (ps : List Payload)
    (h1 : ids.length ≤ vs.length) (h2 : ids.length ≤ ps.length) :
    ∃ pts, buildPoints ids vs ps = .ok pts ∧
      pts.map PointStruct.id = ids ∧
      pts.map PointStruct.payload = ps.take ids.length := by
  induction ids generalizing vs ps with
  | nil => exact ⟨[], rfl, rfl, rfl⟩
  | cons i ids ih =>
    match vs, ps with
    | [], _ => simp at h1
    | _ :: _, [] => simp at h2
    | v :: vs, p :: ps =>
      have h1' : ids.length ≤ vs.length := Nat.le_of_succ_le_succ h1
      have h2' : ids.length ≤ ps.length := Nat.le_of_succ_le_succ h2
      obtain ⟨pts, hok, hid, hpl⟩ := ih vs ps h1' h2'
      exact ⟨⟨i, v, p⟩ :: pts, by simp [buildPoints, hok, Except.map], by simp [hid],
        by simp [hpl]⟩

/-! ## Lemmas about the store's overwrite semantics -/

theorem storeWrite_mem (st : Store) (p e : PointStruct)
    (he : e ∈ storeWrite st p) : e ∈ st ∨ e = p := by
  unfold storeWrite at he
  by_cases h : st.any (fun q => q.id = p.id)
  · rw [if_pos h] at he
    obtain ⟨a, ha, hae⟩ := List.mem_map.mp he
    by_cases hid : a.id = p.id
    · right; rw [← hae]; simp [hid]
    · left; rw [← hae]; simpa [hid]
  · rw [if_neg h] at he
    rcases List.mem_append.mp he with h1 | h1
    · exact Or.inl h1
    · exact Or.inr (by simpa using h1)

theorem storeIds_write_self (st : Store) (p : PointStruct) :
    p.id ∈ storeIds (storeWrite st p) := by
  unfold storeIds storeWrite
  by_cases h : st.any (fun q => q.id = p.id)
  · rw [if_pos h]
    obtain ⟨a, ha, hid⟩ := List.any_eq_true.mp h
    refine List.mem_map.mpr ⟨p, ?_, rfl⟩
    exact List.mem_map.mpr ⟨a, ha, by simp [of_decide_eq_true hid]⟩
  · rw [if_neg h]; simp

theorem storeIds_write_mono (st : Store) (p : PointStruct) (x : String)
    (h : x ∈ storeIds st) : x ∈ storeIds (storeWrite st p) := by
  obtain ⟨a, ha, rfl⟩ := List.mem_map.mp h
  unfold storeIds storeWrite
  by_cases hb : st.any (fun q => q.id = p.id)
  · rw [if_pos hb]
    by_cases hid : a.id = p.id
    · rw [hid]
      refine List.mem_map.mpr ⟨p, List.mem_map.mpr ⟨a, ha, by simp [hid]⟩, rfl⟩
    · exact List.mem_map.mpr ⟨a, List.mem_map.mpr ⟨a, ha, by simp [hid]⟩, rfl⟩
  · rw [if_neg hb]
    exact List.mem_map.mpr ⟨a, List.mem_append_left _ ha, rfl⟩

theorem storeWrite_length (st : Store) (p : PointStruct)
    (h : p.id ∈ storeIds st) : (storeWrite st p).length = st.length := by
  obtain ⟨a, ha, hid⟩ := List.mem_map.mp h
  have hb : st.any (fun q => q.id = p.id) := by
    exact List.any_eq_true.mpr ⟨a, ha, by simp [hid]⟩
  unfold storeWrite
  rw [if_pos hb, List.length_map]

theorem batch_ids_mono (pts : List PointStruct) (st : Store) (x : String)
    (h : x ∈ storeIds st) : x ∈ storeIds (pts.foldl storeWrite st) := by
  induction pts generalizing st with
  | nil => simpa using h
  | cons p rest ih => exact ih (storeWrite st p) (storeIds_write_mono st p x h)

theorem batch_ids_mem (pts : List PointStruct) (st : Store) (p : PointStruct)
    (hp : p ∈ pts) : p.id ∈ storeIds (pts.foldl storeWrite st) := by
  induction pts generalizing st with
  | nil => cases hp
  | cons q rest ih =>
    rcases List.mem_cons.mp hp with rfl | hmem
    · exact batch_ids_mono rest (storeWrite st p) p.id (storeIds_write_self st p)
    · exact ih (storeWrite st q) hmem

theorem batch_length (pts : List PointStruct) (st : Store)
    (h : ∀ p ∈ pts, p.id ∈ storeIds st) :
    (pts.foldl storeWrite st).length = st.length := by
  induction pts generalizing st with
  | nil => rfl
  | cons p rest ih =>
    have hlen : (storeWrite st p).length = st.length :=
      storeWrite_length st p (h p (List.mem_cons_self p rest))
    have hrest : ∀ q ∈ rest, q.id ∈ storeIds (storeWrite st p) := fun q hq =>
      storeIds_write_mono st p q.id (h q (List.mem_cons_of_mem p hq))
    rw [List.foldl_cons, ih (storeWrite st p) hrest, hlen]

theorem storeWrite_key_eq (st : Store) (p : PointStruct) :
    ∀ a ∈ storeWrite st p, a.id = p.id → a = p := by
  intro a ha hid
  unfold storeWrite at ha
  by_cases hb : st.any (fun q => q.id = p.id)
  · rw [if_pos hb] at ha
    obtain ⟨b, hb', hba⟩ := List.mem_map.mp ha
    by_cases hbid : b.id = p.id
    · rw [← hba]; simp [hbid]
    · rw [← hba, if_neg hbid] at hid; exact absurd hid hbid
  · rw [if_neg hb] at ha
    rcases List.mem_append.mp ha with h1 | h1
    · exact absurd (List.any_eq_true.mpr ⟨a, h1, by simp [hid]⟩) hb
    · simpa using h1

theorem key_prop_write (P : PointStruct → Prop) (st : Store) (q : PointStruct)
    (x : String) (h : ∀ a ∈ st, a.id = x → P a) (hq : q.id ≠ x) :
    ∀ a ∈ storeWrite st q, a.id = x → P a := by
  intro a ha hid
  rcases storeWrite_mem st q a ha with h1 | rfl
  · exact h a h1 hid
  · exact absurd hid hq

theorem key_prop_batch (P : PointStruct → Prop) (pts : List PointStruct)
    (st : Store) (x : String) (h : ∀ a ∈ st, a.id = x → P a)
    (hq : ∀ q ∈ pts, q.id ≠ x) :
    ∀ a ∈ pts.foldl storeWrite st, a.id = x → P a := by
  induction pts generalizing st with
  | nil => simpa using h
  | cons q rest ih =>
    exact ih (storeWrite st q)
      (key_prop_write P st q x h (hq q (List.mem_cons_self q rest)))
      (fun r hr => hq r (List.mem_cons_of_mem q hr))

theorem batch_written_prop (P : PointStruct → Prop) (pts : List PointStruct)
    (st : Store) (hP : ∀ p ∈ pts, P p) :
    ∀ e ∈ pts.foldl storeWrite st, e.id ∈ pts.map PointStruct.id → P e := by
  induction pts generalizing st with
  | nil => intro e _ he; simp at he
  | cons p rest ih =>
    intro e he hid
    by_cases hin : e.id ∈ rest.map PointStruct.id
    · exact ih (storeWrite st p) (fun q hq => hP q (List.mem_cons_of_mem p hq)) e he hin
    · have hpe : e.id = p.id := by
        rw [List.map_cons] at hid
        rcases List.mem_cons.mp hid with h1 | h1
        · exact h1
        · exact absurd h1 hin
      have hbase : ∀ a ∈ storeWrite st p, a.id = p.id → P a := by
        intro a ha haid
        rw [storeWrite_key_eq st p a ha haid]
        exact hP p (List.mem_cons_self p rest)
      have hrest : ∀ q ∈ rest, q.id ≠ p.id := by
        intro q hq hqid
        exact hin (hpe ▸ hqid ▸ List.mem_map.mpr ⟨q, hq, rfl⟩)
      exact key_prop_batch P rest (storeWrite st p) p.id hbase hrest e he hpe

theorem storeWrite_countP (st : Store) (p : PointStruct)
    (f : PointStruct → Bool) (hmem : p.id ∈ storeIds st)
    (hinv : ∀ a ∈ st, a.id = p.id → f a = f p) :
    (storeWrite st p).countP f = st.countP f := by
  obtain ⟨a, ha, hid⟩ := List.mem_map.mp hmem
  have hb : st.any (fun q => q.id = p.id) = true :=
    List.any_eq_true.mpr ⟨a, ha, decide_eq_true hid⟩
  unfold storeWrite
  rw [if_pos hb, List.countP_map]
  refine List.countP_congr ?_
  intro b hbmem
  by_cases hbid : b.id = p.id
  · simp [Function.comp, hbid, hinv b hbmem hbid]
  · simp [Function.comp, hbid]

theorem batch_countSource (s : String) (pts : List PointStruct) (st : Store)
    (hsrc : ∀ p ∈ pts, p.payload.source = some s)
    (hpresent : ∀ p ∈ pts, p.id ∈ storeIds st)
    (hinv : ∀ a ∈ st, a.id ∈ pts.map PointStruct.id → a.payload.source = some s) :
    countSource (pts.foldl storeWrite st) s = countSource st s := by
  induction pts generalizing st with
  | nil => rfl
  | cons p rest ih =>
    have hpidmem : p.id ∈ (p :: rest).map PointStruct.id := by simp
    have hwrite : countSource (storeWrite st p) s = countSource st s := by
      refine storeWrite_countP st p _ (hpresent p (List.mem_cons_self p rest)) ?_
      intro a ha haid
      have h1 : a.payload.source = some s := hinv a ha (haid ▸ hpidmem)
      have h2 : p.payload.source = some s := hsrc p (List.mem_cons_self p rest)
      simp [h1, h2]
    have hsrc' : ∀ q ∈ rest, q.payload.source = some s := fun q hq =>
      hsrc q (List.mem_cons_of_mem p hq)
    have hpresent' : ∀ q ∈ rest, q.id ∈ storeIds (storeWrite st p) := fun q hq =>
      storeIds_write_mono st p q.id (hpresent q (List.mem_cons_of_mem p hq))
    have hinv' : ∀ a ∈ storeWrite st p, a.id ∈ rest.map PointStruct.id →
        a.payload.source = some s := by
      intro a ha haid
      rcases storeWrite_mem st p a ha with h1 | rfl
      · exact hinv a h1 (List.map_cons PointStruct.id p rest ▸
          List.mem_cons_of_mem p.id haid)
      · exact hsrc a (List.mem_cons_self a rest)
    calc countSource ((p :: rest).foldl storeWrite st) s
        = countSource (rest.foldl storeWrite (storeWrite st p)) s := rfl
      _ = countSource (storeWrite st p) s := ih (storeWrite st p) hsrc' hpresent' hinv'
      _ = countSource st s := hwrite

theorem deriveIds_length (uuid5 : String → String) (s : String) (n : Nat) :
    (deriveIds uuid5 s n).length = n := by
  simp [deriveIds]

theorem rag_ingest_run (split_text : String → List String)
    (uuid5 : String → String) (embed : String → Vec) (st : Store)
    (docs : List PDFDoc) (source_id : String) :
    ∃ pts,
      buildPoints
        (deriveIds uuid5 source_id (load_and_chunk_pdf split_text docs).length)
        ((load_and_chunk_pdf split_text docs).map embed)
        ((load_and_chunk_pdf split_text docs).map
          (fun c => Payload.mk (some source_id) (some c))) = .ok pts ∧
      pts.map PointStruct.id =
        deriveIds uuid5 source_id (load_and_chunk_pdf split_text docs).length ∧
      pts.map PointStruct.payload =
        (load_and_chunk_pdf split_text docs).map
          (fun c => Payload.mk (some source_id) (some c)) ∧
      rag_ingest_pdf split_text uuid5 embed st docs source_id =
        .ok (pts.foldl storeWrite st,
          ⟨(load_and_chunk_pdf split_text docs).length⟩) := by
  set chunks := load_and_chunk_pdf split_text docs with hchunks
  have hlen1 : (deriveIds uuid5 source_id chunks.length).length ≤
      (chunks.map embed).length := by
    simp [deriveIds_length]
  have hlen2 : (deriveIds uuid5 source_id chunks.length).length ≤
      (chunks.map (fun c => Payload.mk (some source_id) (some c))).length := by
    simp [deriveIds_length]
  obtain ⟨pts, hok, hid, hpl⟩ := buildPoints_ok _ _ _ hlen1 hlen2
  refine ⟨pts, hok, hid, ?_, ?_⟩
  · rw [hpl, deriveIds_length]
    exact List.take_of_length_le (by simp)
  · simp only [rag_ingest_pdf, rag_upsert, rag_load, QdrantStorage.upsert, ← hchunks]
    rw [hok]
    rfl

/-- C1: the record id used at upsert is a deterministic function
(`uuid5`) of the string `"{source_id}: {i}"`, so a second ingest of the same
`(source_id, docs)` builds exactly the same point sequence (same id list),
every one of its writes overwrites an id already present in the store, and
both the store's total record count and its record count for that source are
unchanged by the re-ingest. -/
theorem uuid5_ids_make_reingest_idempotent (split_text : String → List String)
    (uuid5 : String → String) (embed : String → Vec) (st : Store)
    (docs : List PDFDoc) (source_id : String) :
    ∃ (pts : List PointStruct) (st1 st2 : Store),
      pts.map PointStruct.id =
        deriveIds uuid5 source_id (load_and_chunk_pdf split_text docs).length ∧
      rag_ingest_pdf split_text uuid5 embed st docs source_id =
        .ok (st1, ⟨(load_and_chunk_pdf split_text docs).length⟩) ∧
      st1 = pts.foldl storeWrite st ∧
      rag_ingest_pdf split_text uuid5 embed st1 docs source_id =
        .ok (st2, ⟨(load_and_chunk_pdf split_text docs).length⟩) ∧
      st2 = pts.foldl storeWrite st1 ∧
      (∀ i ∈ deriveIds uuid5 source_id
          (load_and_chunk_pdf split_text docs).length, i ∈ storeIds st1) ∧
      st2.length = st1.length ∧
      countSource st2 source_id = countSource st1 source_id := by
  obtain ⟨pts, hok, hid, hpl, hrun1⟩ :=
    rag_ingest_run split_text uuid5 embed st docs source_id
  obtain ⟨pts', hok', _, _, hrun2⟩ :=
    rag_ingest_run split_text uuid5 embed (pts.foldl storeWrite st) docs source_id
  have hpts : pts' = pts := by
    have := hok'.symm.trans hok
    exact (Except.ok.injEq _ _).mp this
  subst pts'
  refine ⟨pts, pts.foldl storeWrite st, pts.foldl storeWrite (pts.foldl storeWrite st),
    hid, hrun1, rfl, hrun2, rfl, ?_, ?_, ?_⟩
  · intro i hi
    rw [← hid] at hi
    obtain ⟨p, hp, rfl⟩ := List.mem_map.mp hi
    exact batch_ids_mem pts st p hp
  · refine batch_length pts (pts.foldl storeWrite st) ?_
    intro p hp
    exact batch_ids_mem pts st p hp
  · have hsrc : ∀ p ∈ pts, p.payload.source = some source_id := by
      intro p hp
      have : p.payload ∈ pts.map PointStruct.payload := List.mem_map.mpr ⟨p, hp, rfl⟩
      rw [hpl] at this
      obtain ⟨c, _, hc⟩ := List.mem_map.mp this
      rw [← hc]
    refine batch_countSource source_id pts (pts.foldl storeWrite st) hsrc ?_ ?_
    · intro p hp
      exact batch_ids_mem pts st p hp
    · intro a ha haid
      rw [hid] at haid
      rw [← hid] at haid
      exact batch_written_prop (fun e => e.payload.source = some source_id)
        pts st hsrc a ha haid

theorem keptTexts_length_le (results : List Hit) :
    (keptTexts results).length ≤ results.length := by
  calc (keptTexts results).length ≤ (results.map Hit.textOf).length :=
        List.length_filter_le _ _
    _ = results.length := List.length_map _ _

theorem keptTexts_ne_empty (results : List Hit) :
    ∀ c ∈ keptTexts results, c ≠ "" := by
  intro c hc
  unfold keptTexts at hc
  exact of_decide_eq_true (List.mem_filter.mp hc).2

theorem load_and_chunk_pdf_empty (split_text : String → List String)
    (docs : List PDFDoc) (h : ∀ d ∈ docs, d.text = none ∨ d.text = some "") :
    load_and_chunk_pdf split_text docs = [] := by
  unfold load_and_chunk_pdf
  have htexts : (docs.filterMap PDFDoc.text).filter (fun t => t ≠ "") = [] := by
    rw [List.filter_eq_nil_iff]
    intro t ht
    obtain ⟨d, hd, hdt⟩ := List.mem_filterMap.mp ht
    rcases h d hd with h1 | h1
    · rw [h1] at hdt; cases hdt
    · rw [h1] at hdt
      cases hdt
      simp
  rw [htexts]
  rfl

theorem bigText_length : bigText.length = 2400 := by
  rw [bigText]
  exact List.length_replicate 2400 'a'

theorem bigText_ne_empty : bigText ≠ "" := by
  intro h
  have hlen := congrArg String.length h
  rw [bigText_length] at hlen
  simp at hlen

theorem windowSplit_bigText_length : (windowSplit 1000 200 bigText).length = 3 := by
  unfold windowSplit
  rw [bigText_length]
  norm_num

theorem scenario_chunks_length :
    (load_and_chunk_pdf (windowSplit 1000 200) [PDFDoc.mk (some bigText)]).length
      = 3 := by
  have heq : load_and_chunk_pdf (windowSplit 1000 200) [PDFDoc.mk (some bigText)] =
      windowSplit 1000 200 bigText := by
    unfold load_and_chunk_pdf
    simp [List.filter_cons, bigText_ne_empty]
  rw [heq, windowSplit_bigText_length]

/-! ## Claim theorems -/

/-- C2, counterexample: a call with 1 id but 2 vectors and 2 payloads has
sequences of unequal length, yet `upsert` does not fail: it silently truncates
and issues the network call with the first triple. -/
theorem upsert_length_mismatch_counterexample :
    (["a"] : List String).length ≠ ([[1], [2]] : List Vec).length ∧
    QdrantStorage.upsert ["a"] [[1], [2]]
      [Payload.mk (some "s") (some "t1"), Payload.mk (some "s") (some "t2")] =
      .ok (.upsertCall
        [PointStruct.mk "a" [1] (Payload.mk (some "s") (some "t1"))]) := by
  constructor
  · decide
  · rfl

/-- C2, amended: `upsert` fails fast with `IndexError`, before any network
call, exactly when `vectors` or `payloads` is shorter than `ids`; when `ids`
is no longer than both, the call proceeds and a single network upsert is
issued carrying one point per id (extra vectors or payloads are silently
dropped). -/
theorem upsert_length_mismatch_amended (ids : List String) (vectors : List Vec)
    (payloads : List Payload) :
    (vectors.length < ids.length ∨ payloads.length < ids.length →
      QdrantStorage.upsert ids vectors payloads = .error .indexError) ∧
    (ids.length ≤ vectors.length → ids.length ≤ payloads.length →
      ∃ pts, QdrantStorage.upsert ids vectors payloads = .ok (.upsertCall pts) ∧
        pts.map PointStruct.id = ids) := by
  constructor
  · intro h
    rw [QdrantStorage.upsert, buildPoints_error ids vectors payloads h]
    rfl
  · intro h1 h2
    obtain ⟨pts, hok, hid, _⟩ := buildPoints_ok ids vectors payloads h1 h2
    exact ⟨pts, by rw [QdrantStorage.upsert, hok]; rfl, hid⟩

theorem upsert_length_mismatch_amended_witness :
    QdrantStorage.upsert ["a", "b"] [[1]]
      [Payload.mk (some "s") (some "t"), Payload.mk (some "s") (some "u")] =
      .error .indexError ∧
    ∃ pts, QdrantStorage.upsert ["a"] [[1]] [Payload.mk (some "s") (some "t")] =
      .ok (.upsertCall pts) ∧ pts.map PointStruct.id = ["a"] :=
  ⟨(upsert_length_mismatch_amended ["a", "b"] [[1]]
      [Payload.mk (some "s") (some "t"), Payload.mk (some "s") (some "u")]).1
      (Or.inl (by decide)),
   (upsert_length_mismatch_amended ["a"] [[1]]
      [Payload.mk (some "s") (some "t")]).2 (by decide) (by decide)⟩

/-- C3, counterexample: constructing the store against a collection that
already exists with dimension 10 while 3072 is requested succeeds and keeps
the existing configuration; no `DimensionMismatchError` is raised, the
mismatch is silently ignored. -/
theorem init_dimension_mismatch_counterexample :
    QdrantStorage.init (some (VectorParams.mk 10 Distance.cosine)) 3072 =
      .ok (VectorParams.mk 10 Distance.cosine) ∧
    (10 : Nat) ≠ 3072 ∧
    QdrantStorage.init (some (VectorParams.mk 10 Distance.cosine)) 3072 ≠
      .error .dimensionMismatchError := by
  refine ⟨rfl, by decide, ?_⟩
  intro h
  cases h

/-- C3, amended: construction is an ensure-if-absent with no dimension check:
when the collection is absent it is created with the requested dimension and
cosine distance; when it exists, construction succeeds and leaves the existing
configuration untouched, even when its dimension differs from the requested
one. -/
theorem ensure_collection_amended (existing : Option VectorParams) (dim : Nat) :
    (existing = none → QdrantStorage.init existing dim =
      .ok (VectorParams.mk dim Distance.cosine)) ∧
    (∀ cfg, existing = some cfg → QdrantStorage.init existing dim = .ok cfg) := by
  constructor
  · intro h; rw [h]; rfl
  · intro cfg h; rw [h]; rfl

theorem ensure_collection_amended_witness :
    QdrantStorage.init none 3072 = .ok (VectorParams.mk 3072 Distance.cosine) ∧
    QdrantStorage.init (some (VectorParams.mk 10 Distance.cosine)) 3072 =
      .ok (VectorParams.mk 10 Distance.cosine) :=
  ⟨(ensure_collection_amended none 3072).1 rfl,
   (ensure_collection_amended (some (VectorParams.mk 10 Distance.cosine)) 3072).2
     (VectorParams.mk 10 Distance.cosine) rfl⟩

/-- C4, counterexample: a document whose sections yield no extractable text
(one section without a text attribute, one with empty text) produces an empty
chunk list, and the whole ingest pipeline returns success with
`ingested = 0`; no `EmptyInputError` is raised. -/
theorem empty_input_counterexample :
    rag_ingest_pdf (fun t => [t]) (fun s => s) (fun _ => ([] : Vec)) []
      [PDFDoc.mk none, PDFDoc.mk (some "")] "doc" =
      .ok ([], RAGUpsertResult.mk 0) ∧
    rag_ingest_pdf (fun t => [t]) (fun s => s) (fun _ => ([] : Vec)) []
      [PDFDoc.mk none, PDFDoc.mk (some "")] "doc" ≠
      .error .emptyInputError := by
  refine ⟨rfl, ?_⟩
  intro h
  cases h

/-- C4, amended: when every section of the document yields no truthy text,
`load_and_chunk_pdf` returns the empty chunk list and ingestion does not
fail: it runs to completion, leaves the store unchanged (the upsert call
carries zero points), and reports `ingested = 0`. -/
theorem empty_input_amended (split_text : String → List String)
    (uuid5 : String → String) (embed : String → Vec) (st : Store)
    (docs : List PDFDoc) (source_id : String)
    (h : ∀ d ∈ docs, d.text = none ∨ d.text = some "") :
    load_and_chunk_pdf split_text docs = [] ∧
    rag_ingest_pdf split_text uuid5 embed st docs source_id =
      .ok (st, RAGUpsertResult.mk 0) := by
  have hc := load_and_chunk_pdf_empty split_text docs h
  refine ⟨hc, ?_⟩
  simp [rag_ingest_pdf, rag_upsert, rag_load, QdrantStorage.upsert, hc,
    deriveIds, buildPoints, Except.map, applyOp]

theorem empty_input_amended_witness :
    load_and_chunk_pdf (fun t => [t]) [PDFDoc.mk none] = [] ∧
    rag_ingest_pdf (fun t => [t]) (fun s => s) (fun _ => ([] : Vec))
      [PointStruct.mk "x" [] (Payload.mk none none)] [PDFDoc.mk none] "doc" =
      .ok ([PointStruct.mk "x" [] (Payload.mk none none)], RAGUpsertResult.mk 0) :=
  empty_input_amended (fun t => [t]) (fun s => s) (fun _ => ([] : Vec))
    [PointStruct.mk "x" [] (Payload.mk none none)] [PDFDoc.mk none] "doc"
    (by decide)

/-- C5: when the store honours the `limit=top_k` it was asked for (the reply
has at most `top_k` hits), `search` succeeds, its contexts are exactly the
non-empty payload texts in reply order (a hit with missing or empty text is
dropped without failing the search), there are at most `top_k` contexts, and
no returned context is the empty string. -/
theorem search_topk_and_nonempty (results : List Hit) (top_k : Nat)
    (h : results.length ≤ top_k) :
    QdrantStorage.search (.ok results) = .ok (processHits results [] []) ∧
    (processHits results [] []).contexts = keptTexts results ∧
    (processHits results [] []).contexts.length ≤ top_k ∧
    ∀ c ∈ (processHits results [] []).contexts, c ≠ "" := by
  have hctx : (processHits results [] []).contexts = keptTexts results := by
    simpa using processHits_contexts results [] []
  refine ⟨rfl, hctx, ?_, ?_⟩
  · rw [hctx]
    exact le_trans (keptTexts_length_le results) h
  · rw [hctx]
    exact keptTexts_ne_empty results

theorem search_topk_and_nonempty_witness :
    (processHits [Hit.mk (some (Payload.mk (some "s") (some "a"))),
      Hit.mk (some (Payload.mk (some "s") (some "")))] [] []).contexts.length ≤ 2 ∧
    ∀ c ∈ (processHits [Hit.mk (some (Payload.mk (some "s") (some "a"))),
      Hit.mk (some (Payload.mk (some "s") (some "")))] [] []).contexts, c ≠ "" :=
  ⟨(search_topk_and_nonempty [Hit.mk (some (Payload.mk (some "s") (some "a"))),
      Hit.mk (some (Payload.mk (some "s") (some "")))] 2 (by decide)).2.2.1,
   (search_topk_and_nonempty [Hit.mk (some (Payload.mk (some "s") (some "a"))),
      Hit.mk (some (Payload.mk (some "s") (some "")))] 2 (by decide)).2.2.2⟩

/-- C6, counterexample: a connectivity failure of the underlying client —
during the search call or during the constructor's collection-exists check —
propagates as the raw client exception, not as the spec's distinct
`StoreUnavailableError`. -/
theorem store_failure_counterexample :
    QdrantStorage.search (.error (.qdrantClientError "connection refused")) =
      .error (.qdrantClientError "connection refused") ∧
    isStoreUnavailable (QdrantStorage.search
      (.error (.qdrantClientError "connection refused"))) = false ∧
    QdrantStorage.initWithCheck
      (.error (.qdrantClientError "connection refused")) 3072 =
      .error (.qdrantClientError "connection refused") ∧
    isStoreUnavailable (QdrantStorage.initWithCheck
      (.error (.qdrantClientError "connection refused")) 3072) = false :=
  ⟨rfl, rfl, rfl, rfl⟩

/-- C6, amended: a store/network connectivity failure of either client call —
the collection-exists check in the constructor, or the search call —
propagates unmodified as the raw client error: it is never wrapped in a
distinct `StoreUnavailableError`, and it is never silently converted into a
success (neither a constructed store nor an empty result set). -/
theorem store_failure_amended (e : StoreError) (dim : Nat) :
    QdrantStorage.search (.error e) = .error e ∧
    isOkResult (QdrantStorage.search (.error e)) = false ∧
    QdrantStorage.initWithCheck (.error e) dim = .error e ∧
    isOkResult (QdrantStorage.initWithCheck (.error e) dim) = false :=
  ⟨rfl, rfl, rfl, rfl⟩

/-- C7: the contexts list is exactly the non-empty payload texts of the hits
in the store's rank order (a sublist of the texts in hit order), and the
sources collection contains each source identifier at most once. -/
theorem search_rank_order_and_dedup (results : List Hit) :
    (processHits results [] []).contexts = keptTexts results ∧
    (keptTexts results).Sublist (results.map Hit.textOf) ∧
    (processHits results [] []).sources.Nodup := by
  refine ⟨by simpa using processHits_contexts results [] [], ?_,
    processHits_sources_nodup results [] [] List.nodup_nil⟩
  exact List.filter_sublist _

/-- C8: a successful ingest reports `ingested` equal to the number of chunks
produced from the document text; in particular, for the spec's scenario (a
2400-character text, windows of 1000 with overlap 200) the chunk count and
the reported `ingested` are 3. -/
theorem ingest_count_eq_chunks (split_text : String → List String)
    (uuid5 : String → String) (embed : String → Vec) (st : Store)
    (docs : List PDFDoc) (source_id : String) :
    (∃ st1, rag_ingest_pdf split_text uuid5 embed st docs source_id =
      .ok (st1, RAGUpsertResult.mk (load_and_chunk_pdf split_text docs).length)) ∧
    (load_and_chunk_pdf (windowSplit 1000 200) [PDFDoc.mk (some bigText)]).length
      = 3 ∧
    (∃ st2, rag_ingest_pdf (windowSplit 1000 200) (fun s => s)
      (fun _ => ([] : Vec)) [] [PDFDoc.mk (some bigText)] "doc" =
      .ok (st2, RAGUpsertResult.mk 3)) := by
  obtain ⟨pts, _, _, _, hrun⟩ :=
    rag_ingest_run split_text uuid5 embed st docs source_id
  obtain ⟨pts2, _, _, _, hrun2⟩ :=
    rag_ingest_run (windowSplit 1000 200) (fun s => s) (fun _ => ([] : Vec)) []
      [PDFDoc.mk (some bigText)] "doc"
  refine ⟨⟨pts.foldl storeWrite st, hrun⟩, scenario_chunks_length,
    ⟨pts2.foldl storeWrite [], ?_⟩⟩
  rw [hrun2, scenario_chunks_length]

/-- C9: the store is asked for only `top_k` hits (the reply is the ranked
list truncated at `top_k`) and hits dropped for empty text are not
backfilled: the contexts are the non-empty texts among the first `top_k`
ranked hits only. Concretely, with a ranked list holding two records with
non-empty text behind an empty-text best hit, a `top_k = 2` search yields
just one context even though two non-empty matches exist in the store. -/
theorem topk_slots_not_backfilled (ranked : List Hit) (top_k : Nat) :
    (searchStore ranked top_k).contexts = keptTexts (ranked.take top_k) ∧
    (searchStore demoRanked 2).contexts.length = 1 ∧
    2 ≤ (keptTexts demoRanked).length := by
  refine ⟨?_, by decide, by decide⟩
  unfold searchStore qdrantReply
  simpa using processHits_contexts (ranked.take top_k) [] []

/-- C10: a hit whose payload carries non-empty text but no `source` key is
kept: its text appears in the contexts and it contributes the default empty
string as its source identifier to the sources collection. -/
theorem missing_source_defaults_empty (results : List Hit) (r : Hit)
    (hr : r ∈ results) (ht : r.textOf ≠ "")
    (hs : (r.payload.getD emptyPayload).source = none) :
    r.textOf ∈ (processHits results [] []).contexts ∧
    "" ∈ (processHits results [] []).sources := by
  constructor
  · have hctx : (processHits results [] []).contexts = keptTexts results := by
      simpa using processHits_contexts results [] []
    rw [hctx]
    exact List.mem_filter.mpr
      ⟨List.mem_map.mpr ⟨r, hr, rfl⟩, decide_eq_true ht⟩
  · have hmem := processHits_sources_of_mem results [] [] r hr ht
    have hsrc : r.sourceOf = "" := by
      rw [Hit.sourceOf, hs]
      rfl
    rwa [hsrc] at hmem

theorem missing_source_defaults_empty_witness :
    (Hit.mk (some (Payload.mk none (some "hello")))).textOf ∈
      (processHits [Hit.mk (some (Payload.mk none (some "hello")))] [] []).contexts ∧
    "" ∈ (processHits [Hit.mk (some (Payload.mk none (some "hello")))] [] []).sources :=
  missing_source_defaults_empty [Hit.mk (some (Payload.mk none (some "hello")))]
    (Hit.mk (some (Payload.mk none (some "hello")))) (by decide) (by decide) rfl

end RAG
